import Mathlib

/-!
Shallow embedding of `src/spark_manager.py` (a release contributor-list
generator) and proofs about its commit-diffing, classification, issue
enrichment, author aggregation and report rendering logic.

Python `dict` is modelled as an insertion-ordered association list and
Python `set` as an insertion-ordered duplicate-free list (Python's set
iteration order is unspecified; insertion order is the canonical
deterministic choice).  External collaborators from the missing
`releaseutils` module are passed in as an explicit `Env` record of
functions wherever their behaviour is irrelevant to a claim.
-/

namespace SparkManager

/-! ### Python `set` modelled as insertion-ordered dedup list -/

def setInsert (s : List String) (x : String) : List String :=
  if x ∈ s then s else s ++ [x]

/-- `s.update(xs)` on a Python set, iterating `xs` in order. -/
def setUnion (s : List String) (xs : List String) : List String :=
  xs.foldl setInsert s

/-- `set(xs)` for a Python list `xs`. -/
def dedupList (xs : List String) : List String := setUnion [] xs

theorem mem_setInsert_self (s : List String) (x : String) : x ∈ setInsert s x := by
  unfold setInsert
  split
  · assumption
  · simp

theorem mem_setInsert_of_mem {s : List String} {y : String} (x : String)
    (h : y ∈ s) : y ∈ setInsert s x := by
  unfold setInsert
  split
  · exact h
  · simp [h]

theorem setInsert_eq_of_mem {s : List String} {x : String} (h : x ∈ s) :
    setInsert s x = s := by
  simp [setInsert, h]

theorem mem_setUnion_of_mem {s : List String} {y : String} (xs : List String)
    (h : y ∈ s) : y ∈ setUnion s xs := by
  induction xs generalizing s with
  | nil => exact h
  | cons a as ih => exact ih (mem_setInsert_of_mem a h)

theorem mem_setUnion_of_mem_right {xs : List String} {y : String} (s : List String)
    (h : y ∈ xs) : y ∈ setUnion s xs := by
  induction xs generalizing s with
  | nil => cases h
  | cons a as ih =>
    rcases List.mem_cons.mp h with h | h
    · subst h
      exact mem_setUnion_of_mem as (mem_setInsert_self s y)
    · exact ih (setInsert s a) h

theorem setUnion_eq_of_subset {s : List String} {xs : List String}
    (h : ∀ x ∈ xs, x ∈ s) : setUnion s xs = s := by
  induction xs generalizing s with
  | nil => rfl
  | cons a as ih =>
    have ha : a ∈ s := h a (by simp)
    show setUnion (setInsert s a) as = s
    rw [setInsert_eq_of_mem ha]
    exact ih fun x hx => h x (by simp [hx])

theorem setUnion_append (s : List String) (xs ys : List String) :
    setUnion s (xs ++ ys) = setUnion (setUnion s xs) ys := by
  unfold setUnion
  exact List.foldl_append setInsert s xs ys

theorem setUnion_ne_nil_left {s : List String} (xs : List String) (h : s ≠ []) :
    setUnion s xs ≠ [] := by
  induction xs generalizing s with
  | nil => exact h
  | cons a as ih =>
    refine ih ?_
    unfold setInsert
    split
    · exact h
    · simp

theorem setUnion_ne_nil_right {xs : List String} (s : List String) (h : xs ≠ []) :
    setUnion s xs ≠ [] := by
  intro hc
  rcases xs with _ | ⟨a, as⟩
  · exact h rfl
  · have : a ∈ setUnion s (a :: as) := mem_setUnion_of_mem_right s (by simp)
    rw [hc] at this
    cases this

/-! ### Python `dict` modelled as insertion-ordered association list -/

def lookupA {β : Type} (m : List (String × β)) (k : String) : Option β :=
  match m with
  | [] => none
  | (k', v) :: rest => if k' = k then some v else lookupA rest k

/-- Update key `k` (in place if present, appended if new), like a Python
dict assignment `m[k] = f(m.get(k))`. -/
def updateA {β : Type} (m : List (String × β)) (k : String) (f : Option β → β) :
    List (String × β) :=
  match m with
  | [] => [(k, f none)]
  | (k', v) :: rest => if k' = k then (k', f (some v)) :: rest else (k', v) :: updateA rest k f

theorem lookupA_updateA_self {β : Type} (m : List (String × β)) (k : String)
    (f : Option β → β) : lookupA (updateA m k f) k = some (f (lookupA m k)) := by
  induction m with
  | nil => simp [updateA, lookupA]
  | cons p rest ih =>
    obtain ⟨k', v⟩ := p
    by_cases h : k' = k
    · simp [updateA, lookupA, h]
    · simp [updateA, lookupA, h, ih]

theorem lookupA_updateA_ne {β : Type} (m : List (String × β)) {k k' : String}
    (f : Option β → β) (h : k' ≠ k) : lookupA (updateA m k f) k' = lookupA m k' := by
  induction m with
  | nil =>
    have hk : ¬ (k = k') := fun he => h he.symm
    simp [updateA, lookupA, hk]
  | cons p rest ih =>
    obtain ⟨k0, v⟩ := p
    by_cases h0 : k0 = k
    · subst h0
      have hk0 : ¬ (k0 = k') := fun he => h he.symm
      simp [updateA, lookupA, hk0]
    · simp [updateA, lookupA, h0, ih]

theorem updateA_updateA_self {β : Type} (m : List (String × β)) (k : String)
    (f g : Option β → β) :
    updateA (updateA m k f) k g = updateA m k (fun o => g (some (f o))) := by
  induction m with
  | nil => simp [updateA]
  | cons p rest ih =>
    obtain ⟨k', v⟩ := p
    by_cases h : k' = k
    · simp [updateA, h]
    · simp [updateA, h, ih]

theorem isSome_lookupA_updateA_of_isSome {β : Type} (m : List (String × β))
    (k k' : String) (f : Option β → β) (h : (lookupA m k').isSome = true) :
    (lookupA (updateA m k f) k').isSome = true := by
  by_cases hk : k' = k
  · subst hk
    rw [lookupA_updateA_self]
    rfl
  · rw [lookupA_updateA_ne m f hk]
    exact h

theorem isSome_lookupA_updateA_self {β : Type} (m : List (String × β))
    (k : String) (f : Option β → β) :
    (lookupA (updateA m k f) k).isSome = true := by
  rw [lookupA_updateA_self]
  rfl

/-! ### String helpers (Python semantics) -/

/-- Python `sub in s` (substring containment), over char lists. -/
def infixOfAux (pat : List Char) : List Char → Bool
  | [] => pat.isEmpty
  | c :: rest => pat.isPrefixOf (c :: rest) || infixOfAux pat rest

/-- Python `sub in s` on strings. -/
def pyIn (sub s : String) : Bool := infixOfAux sub.data s.data

/-- Python `s.lower()` (per-character, ASCII-adequate). -/
def pyLower (s : String) : String := ⟨s.data.map Char.toLower⟩

/-- Python `s.upper()` (per-character, ASCII-adequate). -/
def pyUpper (s : String) : String := ⟨s.data.map Char.toUpper⟩

/-- Python `sep.join(l)`. -/
def joinSep (sep : String) : List String → String
  | [] => ""
  | [x] => x
  | x :: y :: rest => x ++ sep ++ joinSep sep (y :: rest)

/-- Python `s[0].capitalize() + s[1:]`; `none` models the `IndexError`
raised by `s[0]` on an empty string. -/
def capitalizeContribution (s : String) : Option String :=
  match s with
  | ⟨[]⟩ => none
  | ⟨c :: rest⟩ => some ⟨Char.toUpper c :: rest⟩

theorem capitalizeContribution_isSome {s : String} (h : s.data ≠ []) :
    (capitalizeContribution s).isSome = true := by
  obtain ⟨l⟩ := s
  cases l with
  | nil => exact absurd rfl h
  | cons c rest => rfl

theorem data_append (s t : String) : (s ++ t).data = s.data ++ t.data := rfl

theorem joinSep_cons_data (sep x : String) (xs : List String) :
    ∃ t, (joinSep sep (x :: xs)).data = x.data ++ t := by
  cases xs with
  | nil => exact ⟨[], by simp [joinSep]⟩
  | cons y rest =>
    refine ⟨sep.data ++ (joinSep sep (y :: rest)).data, ?_⟩
    show (x ++ sep ++ joinSep sep (y :: rest)).data = _
    rw [data_append, data_append, List.append_assoc]

/-! ### Data model -/

/-- A commit as returned by `get_commits`: hash, title, author and an
optional PR number parsed from the title (`None` when absent). -/
structure Commit where
  hash : String
  title : String
  author : String
  pr_number : Option String
deriving DecidableEq, Repr

/-! ### 4.1 Commit-set differ (`spark_manager.py` lines 37-46) -/

/-- `{commit.get_hash() for commit in previous_release_commits}` -/
def previous_release_hashes (prev : List Commit) : List String :=
  prev.map Commit.hash

/-- `{commit.get_pr_number() for commit in previous_release_commits
     if commit.get_pr_number()}` -/
def previous_release_prs (prev : List Commit) : List String :=
  prev.filterMap Commit.pr_number

/-- The list comprehension at lines 42-46: keep a release commit iff its
hash is not a previous hash and, when it has a PR number, that number is
not a previous PR number. -/
def new_commits (release prev : List Commit) : List Commit :=
  release.filter fun c =>
    !(previous_release_hashes prev).contains c.hash &&
    (match c.pr_number with
     | some pr => !(previous_release_prs prev).contains pr
     | none => true)

/-! ### 4.2 Commit classifier (`spark_manager.py` lines 73-102) -/

def is_release (commit_title : String) : Bool :=
  (["[release]", "preparing spark release", "preparing development version",
    "changes.txt"]).any fun phrase => pyIn phrase (pyLower commit_title)

def is_maintenance (commit_title : String) : Bool :=
  (["maintenance", "manually close"]).any fun phrase =>
    pyIn phrase (pyLower commit_title)

def is_revert (commit_title : String) : Bool :=
  pyIn "revert" (pyLower commit_title)

def is_docs (commit_title : String) : Bool :=
  pyIn "docs" (pyLower commit_title) ||
  pyIn "programming guide" (pyLower commit_title)

/-- A match of the regex `SPARK-[0-9]+` anchored at the start of `l`:
returns the matched text and the remainder after the maximal digit run,
or `none` when the position does not match. -/
def matchAt : List Char → Option (String × List Char)
  | 'S' :: 'P' :: 'A' :: 'R' :: 'K' :: '-' :: rest =>
    let ds := rest.takeWhile Char.isDigit
    if ds.isEmpty then none
    else some ("SPARK-" ++ ds.asString, rest.dropWhile Char.isDigit)
  | _ => none

/-- `re.search("SPARK-[0-9]+", s)` succeeds iff some position matches. -/
def sparkRefIn : List Char → Bool
  | [] => false
  | c :: cs => (matchAt (c :: cs)).isSome || sparkRefIn cs

/-- `not re.search("SPARK-[0-9]+", commit_title.upper())` -/
def has_no_jira (commit_title : String) : Bool :=
  !sparkRefIn (pyUpper commit_title).data

/-- `re.findall("SPARK-[0-9]+", …)`: scan left to right, at each position
try a match; on success emit it and resume after it, on failure advance
one character.  Fuel (an upper bound on steps) keeps the recursion
structural; `findIssues` supplies enough fuel. -/
def findIssuesFuel : Nat → List Char → List String
  | 0, _ => []
  | _, [] => []
  | fuel + 1, c :: cs =>
    match matchAt (c :: cs) with
    | some (iss, rest) => iss :: findIssuesFuel fuel rest
    | none => findIssuesFuel fuel cs

def findIssues (l : List Char) : List String := findIssuesFuel l.length l

/-- `re.findall("SPARK-[0-9]+", title.upper())` at line 150. -/
def issuesOf (c : Commit) : List String := findIssues (pyUpper c.title).data

/-- The destination lists of the classification loop (lines 89-102);
`docsFiltered` and `normal` both append to `filtered_commits`. -/
inductive Category where
  | release
  | maintenance
  | revert
  | docsFiltered
  | nojira
  | normal
deriving DecidableEq, Repr

/-- The if/elif chain of the classification loop, as a function of the
commit title. -/
def classify (title : String) : Category :=
  if is_release title then .release
  else if is_maintenance title then .maintenance
  else if is_revert title then .revert
  else if is_docs title then .docsFiltered
  else if has_no_jira title then .nojira
  else .normal

/-- Membership in `filtered_commits` as a function of the category. -/
def inFiltered (k : Category) : Bool :=
  k = .docsFiltered || k = .normal

/-! ### 4.3/4.4 Issue enrichment and author aggregation
(`spark_manager.py` lines 138-183) -/

/-- The fields read from a successful `jira_client.issue(...)` call:
`fields.issuetype.name` and the names of `fields.components`. -/
structure JiraIssue where
  issuetype : String
  components : List String
deriving DecidableEq, Repr

/-- The external collaborators from `releaseutils` and the JIRA client,
passed as explicit functions.  `jira_issue` returns `none` when
`jira_client.issue(...)` raises.  `translate_issue_type` and
`translate_component` take the raw label and the issue id / commit hash;
their warning side channel is irrelevant to the claims and omitted. -/
structure Env where
  is_valid_author : String → Bool
  find_components : String → String → List String
  jira_issue : String → Option JiraIssue
  translate_issue_type : String → String → String
  translate_component : String → String → String
  get_date : String → String

/-- Modelled from the spec: `CORE_COMPONENT` from the missing
`releaseutils` module, the default "core" component substituted when no
components were found. -/
def CORE_COMPONENT : String := "core"

/-- `author_info`: author → (issue type → set of components). -/
abbrev AuthorInfo : Type := List (String × List (String × List String))

/-- The nested closure `populate(issue_type, components)` at lines
162-168: default empty components to `[CORE_COMPONENT]`, create the
author and issue-type keys when missing, union the components in. -/
def populate (info : AuthorInfo) (author issue_type : String)
    (components : List String) : AuthorInfo :=
  let comps := if components.isEmpty then [CORE_COMPONENT] else components
  updateA info author fun rec0 =>
    updateA (rec0.getD []) issue_type fun s => setUnion (s.getD []) comps

/-- One iteration of the per-issue loop (lines 170-179): `none` when the
tracker call raised (the `except` branch populates nothing), otherwise
the `(jira_type, all_components)` pair passed to `populate`. -/
def jiraContribution (env : Env) (hash : String) (commit_components : List String)
    (issue : String) : Option (String × List String) :=
  match env.jira_issue issue with
  | none => none
  | some ji =>
    let jira_type := env.translate_issue_type ji.issuetype issue
    let jira_components := ji.components.map fun c =>
      env.translate_component c hash
    some (jira_type, dedupList (jira_components ++ commit_components))

/-- All `(issue_type, components)` pairs passed to `populate` while
processing one commit: one per issue whose tracker lookup succeeds
(lines 170-177), plus the documentation entry when the title matches the
docs heuristic and carries no issue reference (lines 180-181). -/
def commitContributions (env : Env) (c : Commit) : List (String × List String) :=
  let issues := issuesOf c
  let commit_components := env.find_components c.title c.hash
  issues.filterMap (jiraContribution env c.hash commit_components) ++
    (if is_docs c.title && issues.isEmpty
     then [("documentation", commit_components)] else [])

/-- The contributions as stored by `populate`, i.e. after substituting
`[CORE_COMPONENT]` for an empty component collection. -/
def storedContributions (env : Env) (c : Commit) : List (String × List String) :=
  (commitContributions env c).map fun e =>
    (e.1, if e.2.isEmpty then [CORE_COMPONENT] else e.2)

/-- The tracker queries issued for a commit: `jira_client.issue(issue)`
once per extracted issue reference, in order. -/
def trackerLookups (env : Env) (c : Commit) : List (Option JiraIssue) :=
  (issuesOf c).map env.jira_issue

/-- The invalid-author rewriting at lines 153-158: when the raw author
string fails validation, record this commit's issue references into the
author's accumulated set and use `"<raw>/<joined set>"` as the identity.
Returns the identity used for aggregation and the updated
`invalid_authors` map. -/
def resolveAuthor (env : Env) (invalid_authors : List (String × List String))
    (author : String) (issues : List String) :
    String × List (String × List String) :=
  if env.is_valid_author author then (author, invalid_authors)
  else
    let acc := setUnion ((lookupA invalid_authors author).getD []) issues
    let inv := updateA invalid_authors author fun _ => acc
    (author ++ "/" ++ joinSep "/" acc, inv)

/-- The mutable state of the processing loop; `processedLog` records the
hash of every commit for which the final "Processed commit" line printed. -/
structure RunState where
  invalid_authors : List (String × List String)
  author_info : AuthorInfo
  processedLog : List String

def initialState : RunState := ⟨[], [], []⟩

/-- One iteration of `for commit in filtered_commits` (lines 147-182). -/
def processCommit (env : Env) (st : RunState) (c : Commit) : RunState :=
  let r := resolveAuthor env st.invalid_authors c.author (issuesOf c)
  let info := (commitContributions env c).foldl
    (fun m e => populate m r.1 e.1 e.2) st.author_info
  ⟨r.2, info, st.processedLog ++ [c.hash]⟩

/-- The identity used for aggregation when a commit is processed in
state `st`. -/
def processIdentity (env : Env) (st : RunState) (c : Commit) : String :=
  (resolveAuthor env st.invalid_authors c.author (issuesOf c)).1

/-- The whole processing loop over `filtered_commits`. -/
def runCommits (env : Env) (cs : List Commit) : RunState :=
  cs.foldl (processCommit env) initialState

/-- All issue references of commits with raw author `a` in `cs`, in
order, deduplicated — the contents of `invalid_authors[a]`. -/
def issuesSeenFor (a : String) (cs : List Commit) : List String :=
  dedupList ((cs.filter fun c => c.author == a).flatMap issuesOf)

/-! ### 4.5 Report writer (`spark_manager.py` lines 186-202) -/

/-- Modelled from the spec: `nice_join` from the missing `releaseutils`
module — no separator for a single item, " and " for two, comma-separated
with "and" before the last for three or more ("A, B, and C"). -/
def nice_join (l : List String) : String :=
  match l with
  | [] => ""
  | [a] => a
  | [a, b] => a ++ " and " ++ b
  | a :: b :: c :: rest =>
    joinSep ", " ((a :: b :: c :: rest).dropLast) ++ ", and " ++
      ((a :: b :: c :: rest).getLastD "")

/-- The union of all components across the author's issue types
(`components.update(comps)` in the loop at lines 190-194). -/
def componentsUnion (record : List (String × List String)) : List String :=
  record.foldl (fun acc e => setUnion acc e.2) []

/-- The set of the author's issue types (`issue_types.add(issue_type)`). -/
def issueTypesOf (record : List (String × List String)) : List String :=
  record.foldl (fun acc e => setInsert acc e.1) []

/-- The uncapitalized contribution clause for one author (lines 189-199). -/
def authorClause (record : List (String × List String)) : String :=
  if (componentsUnion record).length = 1 then
    nice_join (issueTypesOf record) ++ " in " ++ (componentsUnion record).headD ""
  else
    joinSep "; " (record.map fun e => e.1 ++ " in " ++ nice_join e.2)

/-- One report line (lines 189-201): `none` models the `IndexError` of
`contribution[0]` on an empty clause and the impossible case of a missing
author key. -/
def renderAuthor (info : AuthorInfo) (a : String) : Option String :=
  match lookupA info a with
  | none => none
  | some record =>
    match capitalizeContribution (authorClause record) with
    | none => none
    | some clause => some (a ++ " -- " ++ clause)

/-- Insertion sort on strings, modelling `sorted(author_info.keys())`. -/
def insertSorted (x : String) : List String → List String
  | [] => [x]
  | y :: rest => if x ≤ y then x :: y :: rest else y :: insertSorted x rest

def sortStrings (l : List String) : List String := l.foldr insertSorted []

/-- The full report: one line per author, sorted by author. -/
def reportLines (info : AuthorInfo) : Option (List String) :=
  (sortStrings (info.map Prod.fst)).mapM (renderAuthor info)

/-! ### Claim theorems -/

theorem newCommits_pred (prev : List Commit) (c : Commit) :
    (!(previous_release_hashes prev).contains c.hash &&
      (match c.pr_number with
       | some pr => !(previous_release_prs prev).contains pr
       | none => true)) = true ↔
    (c.hash ∉ previous_release_hashes prev ∧
      (c.pr_number = none ∨
        ∀ pr, c.pr_number = some pr → pr ∉ previous_release_prs prev)) := by
  cases hpr : c.pr_number with
  | none => simp [hpr]
  | some pr => simp [hpr]

/-- C1: a release commit is in `new_commits` iff its hash is absent from
the previous hashes and it either has no PR number or its PR number is
absent from the previous PR numbers; in particular a commit whose hash
is a previous hash is always excluded, and a commit whose PR number is a
previous PR number is excluded. -/
theorem new_commits_characterization (prev release : List Commit) (c : Commit) :
    (c ∈ new_commits release prev ↔
      c ∈ release ∧ c.hash ∉ previous_release_hashes prev ∧
        (c.pr_number = none ∨
          ∀ pr, c.pr_number = some pr → pr ∉ previous_release_prs prev)) ∧
    (c.hash ∈ previous_release_hashes prev → c ∉ new_commits release prev) ∧
    (∀ pr, c.pr_number = some pr → pr ∈ previous_release_prs prev →
      c ∉ new_commits release prev) := by
  have hmain : c ∈ new_commits release prev ↔
      c ∈ release ∧ c.hash ∉ previous_release_hashes prev ∧
        (c.pr_number = none ∨
          ∀ pr, c.pr_number = some pr → pr ∉ previous_release_prs prev) := by
    rw [new_commits, List.mem_filter, newCommits_pred]
  refine ⟨hmain, ?_, ?_⟩
  · intro hhash hmem
    exact (hmain.mp hmem).2.1 hhash
  · intro pr hpr hin hmem
    rcases (hmain.mp hmem).2.2 with h | h
    · rw [hpr] at h
      cases h
    · exact h pr hpr hin

/-- Witness for C1: the hash-exclusion and PR-exclusion parts at a
concrete previous/release pair. -/
theorem new_commits_characterization_witness :
    (⟨"h1", "t1", "a", some "7"⟩ : Commit) ∉
      new_commits [⟨"h1", "t1", "a", some "7"⟩] [⟨"h1", "t0", "b", none⟩] ∧
    (⟨"h2", "t2", "a", some "5"⟩ : Commit) ∉
      new_commits [⟨"h2", "t2", "a", some "5"⟩] [⟨"h0", "t0", "b", some "5"⟩] :=
  ⟨(new_commits_characterization [⟨"h1", "t0", "b", none⟩]
      [⟨"h1", "t1", "a", some "7"⟩] ⟨"h1", "t1", "a", some "7"⟩).2.1 (by decide),
   (new_commits_characterization [⟨"h0", "t0", "b", some "5"⟩]
      [⟨"h2", "t2", "a", some "5"⟩] ⟨"h2", "t2", "a", some "5"⟩).2.2 "5"
      rfl (by decide)⟩

/-- C2: the classifier is a pure function of the title applying the
rules in fixed priority order (release, maintenance, revert, docs,
no-issue, else normal) with the first matching rule winning; in
particular any title containing both "[release]" and "revert"
(case-insensitively) classifies as release, not revert. -/
theorem classify_priority (t : String) :
    (is_release t = true → classify t = .release) ∧
    (is_release t = false → is_maintenance t = true → classify t = .maintenance) ∧
    (is_release t = false → is_maintenance t = false → is_revert t = true →
      classify t = .revert) ∧
    (is_release t = false → is_maintenance t = false → is_revert t = false →
      is_docs t = true → classify t = .docsFiltered) ∧
    (is_release t = false → is_maintenance t = false → is_revert t = false →
      is_docs t = false → has_no_jira t = true → classify t = .nojira) ∧
    (is_release t = false → is_maintenance t = false → is_revert t = false →
      is_docs t = false → has_no_jira t = false → classify t = .normal) ∧
    (pyIn "[release]" (pyLower t) = true → pyIn "revert" (pyLower t) = true →
      classify t = .release) := by
  have hrel : pyIn "[release]" (pyLower t) = true → is_release t = true := by
    intro h
    unfold is_release
    simp only [List.any_cons, h, Bool.true_or]
  refine ⟨?_, ?_, ?_, ?_, ?_, ?_, ?_⟩
  case refine_7 =>
    intro h1 _
    simp [classify, hrel h1]
  all_goals intros
  all_goals simp [classify, *]

/-- Witness for C2: a title containing both "[release]" and "revert"
classifies as release. -/
theorem classify_priority_witness :
    classify "[RELEASE] Revert broken change" = .release :=
  (classify_priority "[RELEASE] Revert broken change").2.2.2.2.2.2
    (by decide) (by decide)

theorem setUnion_setUnion_self (s comps : List String) :
    setUnion (setUnion s comps) comps = setUnion s comps :=
  setUnion_eq_of_subset fun _ hx => mem_setUnion_of_mem_right s hx

/-- The component set stored in `author_info` for one author and issue
type (empty when the keys are absent). -/
def componentsAt (info : AuthorInfo) (a t : String) : List String :=
  (((lookupA info a).getD []).foldl
    (fun acc e => if e.1 = t then e.2 else acc) [])

/-- C8: merging the same `(author, issue_type, components)` pair into
`author_info` twice yields exactly the same map — in particular the same
component set, of the same size — as merging it once. -/
theorem populate_idempotent (info : AuthorInfo) (a t : String)
    (c : List String) :
    populate (populate info a t c) a t c = populate info a t c ∧
    (componentsAt (populate (populate info a t c) a t c) a t).length =
      (componentsAt (populate info a t c) a t).length := by
  have key : populate (populate info a t c) a t c = populate info a t c := by
    unfold populate
    rw [updateA_updateA_self]
    refine congrArg (updateA info a) (funext fun o => ?_)
    show updateA (updateA (o.getD []) t _) t _ = _
    rw [updateA_updateA_self]
    refine congrArg (updateA (o.getD []) t) (funext fun s => ?_)
    show setUnion (setUnion (s.getD []) _) _ = _
    rw [setUnion_setUnion_self]
  exact ⟨key, by rw [key]⟩

/-! #### `re.search` agrees with `re.findall` emptiness -/

theorem findIssuesFuel_nil_iff (fuel : Nat) (l : List Char)
    (h : l.length ≤ fuel) :
    (findIssuesFuel fuel l = [] ↔ sparkRefIn l = false) := by
  induction fuel generalizing l with
  | zero =>
    have hl : l = [] := List.length_eq_zero.mp (Nat.le_zero.mp h)
    subst hl
    simp [findIssuesFuel, sparkRefIn]
  | succ fuel ih =>
    cases l with
    | nil => simp [findIssuesFuel, sparkRefIn]
    | cons c cs =>
      cases hm : matchAt (c :: cs) with
      | some p =>
        obtain ⟨iss, rest⟩ := p
        simp [findIssuesFuel, sparkRefIn, hm]
      | none =>
        have hcs : cs.length ≤ fuel := Nat.le_of_succ_le_succ h
        simp [findIssuesFuel, sparkRefIn, hm, ih cs hcs]

theorem findIssues_ne_nil_of_sparkRefIn {l : List Char}
    (h : sparkRefIn l = true) : findIssues l ≠ [] := by
  intro hc
  have hf := (findIssuesFuel_nil_iff l.length l le_rfl).mp hc
  rw [h] at hf
  cases hf

theorem classify_normal_issues_ne_nil {c : Commit}
    (h : classify c.title = .normal) : issuesOf c ≠ [] := by
  unfold classify at h
  split_ifs at h with h1 h2 h3 h4 h5
  have hj : sparkRefIn (pyUpper c.title).data = true := by
    have h5' : has_no_jira c.title = false := by
      cases hnj : has_no_jira c.title with
      | false => rfl
      | true => exact absurd hnj h5
    unfold has_no_jira at h5'
    simpa using h5'
  exact findIssues_ne_nil_of_sparkRefIn hj

theorem classify_docsFiltered_is_docs {t : String}
    (h : classify t = .docsFiltered) : is_docs t = true := by
  unfold classify at h
  split_ifs at h with h1 h2 h3 h4
  exact h4

/-! #### C3 -/

theorem storedContributions_components_ne_nil (env : Env) (c : Commit) :
    ∀ e ∈ storedContributions env c, e.2 ≠ [] := by
  intro e he
  unfold storedContributions at he
  rcases List.mem_map.mp he with ⟨e0, _, rfl⟩
  by_cases hemp : e0.2.isEmpty
  · simp [hemp]
  · simp [hemp]
    intro hc
    rw [hc] at hemp
    exact hemp rfl

theorem filterMap_ne_nil_of_some {α β : Type} {f : α → Option β} {l : List α}
    {i : α} (hi : i ∈ l) (hs : (f i).isSome = true) : l.filterMap f ≠ [] := by
  intro hc
  cases ho : f i with
  | none => rw [ho] at hs; cases hs
  | some b =>
    have : b ∈ l.filterMap f := List.mem_filterMap.mpr ⟨i, hi, ho⟩
    rw [hc] at this
    cases this

theorem lookupA_foldl_populate_isSome (ident : String)
    (contribs : List (String × List String)) (info : AuthorInfo)
    (h : (lookupA info ident).isSome = true) :
    (lookupA (contribs.foldl (fun m e => populate m ident e.1 e.2) info)
      ident).isSome = true := by
  induction contribs generalizing info with
  | nil => exact h
  | cons e rest ih =>
    exact ih (populate info ident e.1 e.2)
      (isSome_lookupA_updateA_of_isSome _ _ _ _ h)

/-- C3 (amended): every commit routed to the filtered/normal processing
queue, provided it has no issue references or at least one of its
tracker lookups succeeds, contributes at least one
`(issue_type, component_set)` entry to `author_info`, and every
contributed component set is non-empty (the default core component is
substituted for an empty collection). -/
theorem filtered_commit_contributes (env : Env) (st : RunState) (c : Commit)
    (hk : inFiltered (classify c.title) = true)
    (hsucc : issuesOf c = [] ∨
      ∃ i ∈ issuesOf c, (env.jira_issue i).isSome = true) :
    storedContributions env c ≠ [] ∧
    (∀ e ∈ storedContributions env c, e.2 ≠ []) ∧
    (lookupA (processCommit env st c).author_info
      (processIdentity env st c)).isSome = true := by
  have hcc : commitContributions env c ≠ [] := by
    rcases hsucc with hnone | ⟨i, hi, hs⟩
    · have hdocs : classify c.title = .docsFiltered := by
        unfold inFiltered at hk
        rcases Bool.or_eq_true_iff.mp hk with hd | hn
        · exact of_decide_eq_true hd
        · exact absurd hnone (classify_normal_issues_ne_nil (of_decide_eq_true hn))
      have hd : is_docs c.title = true := classify_docsFiltered_is_docs hdocs
      unfold commitContributions
      simp [hnone, hd]
    · have hj : (jiraContribution env c.hash
          (env.find_components c.title c.hash) i).isSome = true := by
        unfold jiraContribution
        cases ho : env.jira_issue i with
        | none => rw [ho] at hs; cases hs
        | some ji => simp
      intro hc
      unfold commitContributions at hc
      rcases List.append_eq_nil.mp hc with ⟨hfm, _⟩
      exact filterMap_ne_nil_of_some hi hj hfm
  have hstored : storedContributions env c ≠ [] := by
    intro hc
    unfold storedContributions at hc
    exact hcc (List.map_eq_nil_iff.mp hc)
  refine ⟨hstored, storedContributions_components_ne_nil env c, ?_⟩
  show (lookupA ((commitContributions env c).foldl _ st.author_info) _).isSome = true
  rcases hcs : commitContributions env c with _ | ⟨e, rest⟩
  · exact absurd hcs hcc
  · exact lookupA_foldl_populate_isSome _ rest _
      (isSome_lookupA_updateA_self _ _ _)

/-- A concrete environment in which every tracker lookup fails. -/
def envAllFail : Env where
  is_valid_author := fun _ => true
  find_components := fun _ _ => []
  jira_issue := fun _ => none
  translate_issue_type := fun ty _ => ty
  translate_component := fun co _ => co
  get_date := fun _ => ""

/-- A concrete environment in which every tracker lookup succeeds. -/
def envOK : Env where
  is_valid_author := fun _ => true
  find_components := fun _ _ => []
  jira_issue := fun _ => some ⟨"Bug", ["Core"]⟩
  translate_issue_type := fun ty _ => ty
  translate_component := fun co _ => co
  get_date := fun _ => ""

/-- A commit the classifier routes to the normal queue. -/
def cNormal : Commit := ⟨"h1", "Fix SPARK-123 crash", "A <a@x.com>", none⟩

/-- C3 counterexample: against a tracker whose every lookup fails, a
commit classified as normal contributes no entry at all — after the run
`author_info` is empty, refuting the unconditional invariant. -/
theorem filtered_commit_contributes_cex :
    classify cNormal.title = .normal ∧
    storedContributions envAllFail cNormal = [] ∧
    (runCommits envAllFail [cNormal]).author_info = [] := by
  exact ⟨by decide, by decide, by decide⟩

/-- Witness for C3: a normal commit whose tracker lookup succeeds does
contribute an entry. -/
theorem filtered_commit_contributes_witness :
    storedContributions envOK cNormal ≠ [] ∧
    (lookupA (processCommit envOK initialState cNormal).author_info
      (processIdentity envOK initialState cNormal)).isSome = true := by
  have h := filtered_commit_contributes envOK initialState cNormal (by decide)
    (Or.inr ⟨"SPARK-123", by decide, by decide⟩)
  exact ⟨h.1, h.2.2⟩

/-! #### C6 -/

theorem jiraContribution_none (env : Env) (hash : String) (cc : List String)
    {i : String} (h : env.jira_issue i = none) :
    jiraContribution env hash cc i = none := by
  unfold jiraContribution
  rw [h]

theorem filterMap_filter_ne {β : Type} (f : String → Option β) {i : String}
    (hf : f i = none) (l : List String) :
    l.filterMap f = (l.filter fun j => j != i).filterMap f := by
  induction l with
  | nil => rfl
  | cons a as ih =>
    by_cases ha : a = i
    · subst ha
      simp [List.filterMap_cons, hf, List.filter_cons, ih]
    · simp [List.filterMap_cons, List.filter_cons, ha, ih]

theorem processedLog_runCommits (env : Env) (cs : List Commit) :
    (runCommits env cs).processedLog = cs.map Commit.hash := by
  have key : ∀ (cs : List Commit) (st : RunState),
      (cs.foldl (processCommit env) st).processedLog =
        st.processedLog ++ cs.map Commit.hash := by
    intro cs
    induction cs with
    | nil =>
      intro st
      simp
    | cons c rest ih =>
      intro st
      rw [List.foldl_cons, ih]
      show (processCommit env st c).processedLog ++ _ = _
      simp [processCommit]
  simpa using key cs initialState

/-- C6: a failing tracker query for one issue reference drops only that
reference's contribution — the commit's other issue references produce
exactly the contributions they would produce were the failing reference
absent — and the run still processes every commit (none is dropped and
the run does not terminate early). -/
theorem tracker_failure_isolated (env : Env) (c : Commit) (i : String)
    (hfail : env.jira_issue i = none) :
    ((issuesOf c).filterMap
        (jiraContribution env c.hash (env.find_components c.title c.hash)) =
      ((issuesOf c).filter fun j => j != i).filterMap
        (jiraContribution env c.hash (env.find_components c.title c.hash))) ∧
    (∀ cs : List Commit, (runCommits env cs).processedLog =
      cs.map Commit.hash) :=
  ⟨filterMap_filter_ne _ (jiraContribution_none env c.hash _ hfail) _,
   fun cs => processedLog_runCommits env cs⟩

/-- Witness for C6: with the always-failing tracker, the run over one
commit still logs that commit as processed. -/
theorem tracker_failure_isolated_witness :
    (runCommits envAllFail [cNormal]).processedLog =
      [cNormal].map Commit.hash :=
  (tracker_failure_isolated envAllFail cNormal "SPARK-123" rfl).2 [cNormal]

/-! #### C5 -/

/-- C5 (amended): a commit whose title matches the documentation
heuristic, is not captured by the earlier release/maintenance/revert
rules, and carries no issue reference is routed into the normal
processing queue (the docs branch of `filtered_commits`), performs no
tracker lookup, and is force-classified under issue type
"documentation" using only the title/diff-inferred components. -/
theorem docs_no_issue_force_classified (env : Env) (c : Commit)
    (hd : is_docs c.title = true)
    (hr : is_release c.title = false)
    (hm : is_maintenance c.title = false)
    (hv : is_revert c.title = false)
    (hi : issuesOf c = []) :
    classify c.title = .docsFiltered ∧
    inFiltered (classify c.title) = true ∧
    trackerLookups env c = [] ∧
    commitContributions env c =
      [("documentation", env.find_components c.title c.hash)] ∧
    storedContributions env c =
      [("documentation",
        if (env.find_components c.title c.hash).isEmpty then [CORE_COMPONENT]
        else env.find_components c.title c.hash)] := by
  have hc : classify c.title = .docsFiltered := by
    simp [classify, hr, hm, hv, hd]
  refine ⟨hc, by simp [inFiltered, hc], ?_, ?_, ?_⟩
  · simp [trackerLookups, hi]
  · simp [commitContributions, hi, hd]
  · simp [storedContributions, commitContributions, hi, hd]

/-- C5 counterexample: "[release] update docs" matches the docs
heuristic and carries no issue reference, yet the release rule fires
first, so the commit is not routed into the normal processing queue. -/
theorem docs_no_issue_cex :
    is_docs "[release] update docs" = true ∧
    has_no_jira "[release] update docs" = true ∧
    issuesOf ⟨"h9", "[release] update docs", "A <a@x.com>", none⟩ = [] ∧
    classify "[release] update docs" = .release ∧
    inFiltered (classify "[release] update docs") = false := by
  decide

/-- A documentation commit without any issue reference. -/
def cDocs : Commit := ⟨"h3", "Update docs for streaming", "B <b@x.com>", none⟩

/-- Witness for C5: the docs commit is force-classified as
"documentation" with the (defaulted) inferred components. -/
theorem docs_no_issue_witness :
    storedContributions envOK cDocs = [("documentation", [CORE_COMPONENT])] := by
  have h := docs_no_issue_force_classified envOK cDocs (by decide) (by decide)
    (by decide) (by decide) (by decide)
  rw [h.2.2.2.2]
  decide

/-! #### C7 and C10 -/

theorem string_append_empty (s : String) : s ++ "" = s := by
  obtain ⟨l⟩ := s
  show String.mk (l ++ []) = String.mk l
  rw [List.append_nil]

theorem resolveAuthor_lookup (env : Env) (inv : List (String × List String))
    (author : String) (issues : List String) (a : String)
    (hva : env.is_valid_author a = false) :
    (lookupA (resolveAuthor env inv author issues).2 a).getD [] =
      if author = a
      then setUnion ((lookupA inv a).getD []) issues
      else (lookupA inv a).getD [] := by
  by_cases he : author = a
  · subst he
    unfold resolveAuthor
    simp [hva, lookupA_updateA_self]
  · unfold resolveAuthor
    by_cases hv : env.is_valid_author author
    · simp [hv, he]
    · simp only [hv, Bool.false_eq_true, if_neg, if_false]
      rw [lookupA_updateA_ne _ _ fun hh => he hh.symm]
      simp [he]

theorem invalid_accum_foldl (env : Env) (a : String)
    (hva : env.is_valid_author a = false) :
    ∀ (cs : List Commit) (st : RunState),
      (lookupA (cs.foldl (processCommit env) st).invalid_authors a).getD [] =
        setUnion ((lookupA st.invalid_authors a).getD [])
          ((cs.filter fun c => c.author == a).flatMap issuesOf) := by
  intro cs
  induction cs with
  | nil =>
    intro st
    simp [setUnion]
  | cons c rest ih =>
    intro st
    rw [List.foldl_cons, ih]
    have hstep : (lookupA (processCommit env st c).invalid_authors a).getD [] =
        if c.author = a
        then setUnion ((lookupA st.invalid_authors a).getD []) (issuesOf c)
        else (lookupA st.invalid_authors a).getD [] :=
      resolveAuthor_lookup env st.invalid_authors c.author (issuesOf c) a hva
    by_cases hca : c.author = a
    · rw [hstep, if_pos hca, List.filter_cons, if_pos (by simp [hca]),
        List.flatMap_cons, setUnion_append]
    · rw [hstep, if_neg hca, List.filter_cons, if_neg (by simp [hca])]

/-- C7: for a commit whose raw author fails validation, the identity
used for aggregation is the raw author followed by "/"-joined issue
references, namely the deduplicated issue references of all that
author's commits processed so far (earlier commits included), so the
identity grows across the run. -/
theorem invalid_author_identity (env : Env) (pre : List Commit) (c : Commit)
    (hva : env.is_valid_author c.author = false) :
    processIdentity env (runCommits env pre) c =
      c.author ++ "/" ++ joinSep "/" (issuesSeenFor c.author (pre ++ [c])) := by
  unfold processIdentity resolveAuthor
  simp only [hva, Bool.false_eq_true, if_false]
  congr 2
  unfold runCommits
  rw [invalid_accum_foldl env c.author hva pre initialState]
  show setUnion (setUnion [] _) _ = _
  rw [← setUnion_append]
  unfold issuesSeenFor dedupList
  rw [List.filter_append, List.flatMap_append]
  congr 2
  simp

/-- An environment rejecting every author string. -/
def envInvalid : Env where
  is_valid_author := fun _ => false
  find_components := fun _ _ => []
  jira_issue := fun _ => none
  translate_issue_type := fun ty _ => ty
  translate_component := fun co _ => co
  get_date := fun _ => ""

def cBad1 : Commit := ⟨"h4", "Fix SPARK-1 and SPARK-2", "badguy", none⟩

def cBad2 : Commit := ⟨"h5", "Fix SPARK-2 and SPARK-3", "badguy", none⟩

/-- Witness for C7: the second offending commit's identity carries the
deduplicated references of both commits. -/
theorem invalid_author_identity_witness :
    processIdentity envInvalid (runCommits envInvalid [cBad1]) cBad2 =
      "badguy/SPARK-1/SPARK-2/SPARK-3" := by
  rw [invalid_author_identity envInvalid [cBad1] cBad2 rfl]
  decide

/-- C10: the rewrite applies even when no issue references at all have
been seen for the raw author: the identity becomes the raw string with a
single trailing "/". -/
theorem invalid_author_empty_set (env : Env)
    (inv : List (String × List String)) (author : String)
    (issues : List String) (hva : env.is_valid_author author = false)
    (hacc : setUnion ((lookupA inv author).getD []) issues = []) :
    (resolveAuthor env inv author issues).1 = author ++ "/" := by
  unfold resolveAuthor
  simp only [hva, Bool.false_eq_true, if_false]
  show author ++ "/" ++ joinSep "/" (setUnion _ _) = _
  rw [hacc]
  show author ++ "/" ++ "" = author ++ "/"
  exact string_append_empty _

/-- Witness for C10: a never-seen invalid author with no issue
references gets the bare trailing slash. -/
theorem invalid_author_empty_set_witness :
    (resolveAuthor envInvalid [] "badguy" []).1 = "badguy" ++ "/" :=
  invalid_author_empty_set envInvalid [] "badguy" [] rfl rfl

/-! #### C9 -/

/-- Well-formedness of `author_info`: every author has at least one
issue type and every issue type a non-empty component set. -/
def InfoWF (info : AuthorInfo) : Prop :=
  ∀ p ∈ info, p.2 ≠ [] ∧ ∀ q ∈ p.2, q.2 ≠ []

theorem updateA_ne_nil {β : Type} (m : List (String × β)) (k : String)
    (f : Option β → β) : updateA m k f ≠ [] := by
  cases m with
  | nil => simp [updateA]
  | cons p rest =>
    obtain ⟨k0, v⟩ := p
    unfold updateA
    split <;> simp

theorem updateA_forall_values {β : Type} (P : β → Prop)
    (m : List (String × β)) (k : String) (f : Option β → β)
    (hm : ∀ p ∈ m, P p.2)
    (hf : ∀ o : Option β, (∀ b, o = some b → P b) → P (f o)) :
    ∀ p ∈ updateA m k f, P p.2 := by
  induction m with
  | nil =>
    intro p hp
    simp only [updateA, List.mem_singleton] at hp
    subst hp
    exact hf none fun b hb => by cases hb
  | cons q rest ih =>
    obtain ⟨k0, v⟩ := q
    intro p hp
    by_cases h0 : k0 = k
    · rw [updateA, if_pos h0] at hp
      rcases List.mem_cons.mp hp with rfl | hp
      · exact hf (some v) fun b hb => by
          cases hb
          exact hm (k0, v) (by simp)
      · exact hm p (by simp [hp])
    · rw [updateA, if_neg h0] at hp
      rcases List.mem_cons.mp hp with rfl | hp
      · exact hm (k0, v) (by simp)
      · exact ih (fun p hp => hm p (by simp [hp])) p hp

theorem populate_comps_ne_nil (components : List String) :
    (if components.isEmpty then [CORE_COMPONENT] else components) ≠ [] := by
  split
  · simp
  · intro hc
    simp [hc] at *

theorem populate_InfoWF {info : AuthorInfo} (h : InfoWF info)
    (a t : String) (comps : List String) :
    InfoWF (populate info a t comps) := by
  unfold populate
  unfold InfoWF at h ⊢
  refine updateA_forall_values
    (fun record => record ≠ [] ∧ ∀ q ∈ record, q.2 ≠ []) info a _ h ?_
  intro o ho
  constructor
  · exact updateA_ne_nil _ _ _
  · refine updateA_forall_values (fun s => s ≠ []) _ t _ ?_ ?_
    · intro q hq
      cases o with
      | none => cases hq
      | some r => exact (ho r rfl).2 q hq
    · intro s _
      exact setUnion_ne_nil_right _ (populate_comps_ne_nil comps)

theorem foldl_populate_InfoWF (ident : String)
    (contribs : List (String × List String)) {info : AuthorInfo}
    (h : InfoWF info) :
    InfoWF (contribs.foldl (fun m e => populate m ident e.1 e.2) info) := by
  induction contribs generalizing info with
  | nil => exact h
  | cons e rest ih => exact ih (populate_InfoWF h ident e.1 e.2)

theorem runCommits_InfoWF (env : Env) (cs : List Commit) :
    InfoWF (runCommits env cs).author_info := by
  have key : ∀ (cs : List Commit) (st : RunState),
      InfoWF st.author_info →
      InfoWF (cs.foldl (processCommit env) st).author_info := by
    intro cs
    induction cs with
    | nil => exact fun st h => h
    | cons c rest ih =>
      intro st h
      exact ih _ (foldl_populate_InfoWF _ _ h)
  exact key cs initialState fun p hp => by cases hp

theorem in_sep_data_length (x y : String) :
    ((x ++ " in " ++ y).data).length = x.data.length + 4 + y.data.length := by
  have h4 : (" in " : String).data.length = 4 := rfl
  rw [data_append, data_append, List.length_append, List.length_append, h4]

theorem authorClause_data_ne_nil {record : List (String × List String)}
    (hr : record ≠ []) : (authorClause record).data ≠ [] := by
  unfold authorClause
  split
  · intro hc
    have hlen := congrArg List.length hc
    rw [in_sep_data_length] at hlen
    simp at hlen
  · rcases record with _ | ⟨p, rest⟩
    · exact absurd rfl hr
    · rw [List.map_cons]
      obtain ⟨t, ht⟩ := joinSep_cons_data "; "
        (p.1 ++ " in " ++ nice_join p.2) (rest.map fun e => e.1 ++ " in " ++ nice_join e.2)
      rw [ht]
      intro hc
      have hlen := congrArg List.length hc
      rw [List.length_append, in_sep_data_length] at hlen
      simp at hlen

theorem lookupA_mem {β : Type} {m : List (String × β)} {k : String} {v : β}
    (h : lookupA m k = some v) : (k, v) ∈ m := by
  induction m with
  | nil => cases h
  | cons p rest ih =>
    obtain ⟨k0, v0⟩ := p
    unfold lookupA at h
    by_cases h0 : k0 = k
    · rw [if_pos h0] at h
      cases h
      subst h0
      simp
    · rw [if_neg h0] at h
      simp [ih h]

theorem renderAuthor_isSome {info : AuthorInfo} (h : InfoWF info)
    {a : String} (ha : (lookupA info a).isSome = true) :
    (renderAuthor info a).isSome = true := by
  rcases Option.isSome_iff_exists.mp ha with ⟨record, hrec⟩
  have hne : record ≠ [] := (h (a, record) (lookupA_mem hrec)).1
  have hcap : (capitalizeContribution (authorClause record)).isSome = true :=
    capitalizeContribution_isSome (authorClause_data_ne_nil hne)
  rcases Option.isSome_iff_exists.mp hcap with ⟨clause, hcl⟩
  simp only [renderAuthor, hrec, hcl]
  rfl

theorem lookupA_isSome_of_mem_keys {β : Type} {m : List (String × β)}
    {a : String} (h : a ∈ m.map Prod.fst) : (lookupA m a).isSome = true := by
  induction m with
  | nil => cases h
  | cons p rest ih =>
    obtain ⟨k0, v0⟩ := p
    unfold lookupA
    by_cases h0 : k0 = a
    · rw [if_pos h0]
      rfl
    · rw [if_neg h0]
      rcases List.mem_cons.mp h with h | h
      · exact absurd h.symm h0
      · exact ih h

theorem mem_insertSorted {x y : String} {l : List String}
    (h : y ∈ insertSorted x l) : y = x ∨ y ∈ l := by
  induction l with
  | nil =>
    simp [insertSorted] at h
    exact Or.inl h
  | cons z rest ih =>
    unfold insertSorted at h
    split at h
    · rcases List.mem_cons.mp h with h | h
      · exact Or.inl h
      · exact Or.inr h
    · rcases List.mem_cons.mp h with h | h
      · exact Or.inr (by simp [h])
      · rcases ih h with h | h
        · exact Or.inl h
        · exact Or.inr (by simp [h])

theorem mem_sortStrings {y : String} {l : List String}
    (h : y ∈ sortStrings l) : y ∈ l := by
  induction l with
  | nil => cases h
  | cons x rest ih =>
    rcases mem_insertSorted h with h | h
    · simp [h]
    · simp [ih h]

theorem mapM_isSome {α β : Type} (f : α → Option β) (l : List α)
    (h : ∀ a ∈ l, (f a).isSome = true) : (l.mapM f).isSome = true := by
  induction l with
  | nil => rfl
  | cons a as ih =>
    rcases Option.isSome_iff_exists.mp (h a (by simp)) with ⟨b, hb⟩
    rcases Option.isSome_iff_exists.mp (ih fun x hx => h x (by simp [hx]))
      with ⟨bs, hbs⟩
    rw [List.mapM_cons, hb, hbs]
    rfl

theorem reportLines_isSome {info : AuthorInfo} (h : InfoWF info) :
    (reportLines info).isSome = true := by
  unfold reportLines
  refine mapM_isSome _ _ fun a ha => ?_
  exact renderAuthor_isSome h (lookupA_isSome_of_mem_keys (mem_sortStrings ha))

/-- C9: after any run, every issue-type key of every author maps to a
non-empty component set (populate substitutes the default core
component), hence every report line renders: capitalization never takes
the first character of an empty string. -/
theorem report_safe (env : Env) (cs : List Commit) :
    InfoWF (runCommits env cs).author_info ∧
    (reportLines (runCommits env cs).author_info).isSome = true :=
  ⟨runCommits_InfoWF env cs,
   reportLines_isSome (runCommits_InfoWF env cs)⟩

/-- Witness for C9 at a concrete run. -/
theorem report_safe_witness :
    (reportLines (runCommits envOK [cNormal]).author_info).isSome = true :=
  (report_safe envOK [cNormal]).2

/-! #### C4 -/

/-- C4: when exactly one distinct component appears across all of an
author's issue types, the contribution clause is the joined issue types
followed by " in " and that component (the report then capitalizes only
the first character). -/
theorem single_component_render (record : List (String × List String))
    (comp : String) (h : componentsUnion record = [comp]) :
    authorClause record = nice_join (issueTypesOf record) ++ " in " ++ comp ∧
    capitalizeContribution (authorClause record) =
      capitalizeContribution
        (nice_join (issueTypesOf record) ++ " in " ++ comp) := by
  have hmain : authorClause record =
      nice_join (issueTypesOf record) ++ " in " ++ comp := by
    unfold authorClause
    rw [h]
    simp
  exact ⟨hmain, by rw [hmain]⟩

/-- Witness for C4: an author with the single component "core" and
issue types Bug and Improvement renders as
"Bug and Improvement in core". -/
theorem single_component_render_witness :
    authorClause [("Bug", ["core"]), ("Improvement", ["core"])] =
      nice_join (issueTypesOf [("Bug", ["core"]), ("Improvement", ["core"])]) ++
        " in " ++ "core" ∧
    capitalizeContribution
        (authorClause [("Bug", ["core"]), ("Improvement", ["core"])]) =
      some "Bug and Improvement in core" :=
  ⟨(single_component_render [("Bug", ["core"]), ("Improvement", ["core"])]
      "core" (by decide)).1, by decide⟩

end SparkManager
